import Mathlib

/-!
Verification of the form-state orchestration core of `react-form-enhancer`.

The development shallowly embeds `src/formStateProvider.ts` (the Form State
Controller, present in full) together with `src/eventAdaptors.ts` (the UI
event adaptors, present in full).  The implementation of
`src/handlerEngine.ts` (`invokeHandler`, `mergeErrors`) and of
`src/definitionChecker.ts` (`isDefinedName`) is not part of the sources —
only their type declarations are — so those two pieces are modelled from the
specification text and are marked as such on their definitions.

Values stored in the form are drawn from an arbitrary type `V`; value maps
and error maps are association lists with JavaScript-object/`immutable.Map`
update semantics (`entrySet` overwrites an existing key in place, otherwise
appends).  Asynchronous behaviour is embedded as a small-step protocol: an
operation (validator or submitter) is described by its eventual behaviour
(`OpBehavior`), the controller transition records the invocation and the
pending completion, and a separate `settle` step delivers the completion
through the very same guarded callbacks the source installs
(`updateErrors`, `endSubmitting`).
-/

namespace ReactFormEnhancer

/-- Association-list lookup, the embedding of reading `obj[key]` on a
JavaScript object (absent key ↦ `none`, i.e. `undefined`). -/
def entryGet {V : Type} (l : List (String × V)) (k : String) : Option V :=
  match l with
  | [] => none
  | (k', v) :: rest => if k' = k then some v else entryGet rest k

/-- Association-list update with `immutable.Map#set` semantics: an existing
key keeps its position and is overwritten (every duplicate occurrence, so the
map invariant of unique keys is preserved), a fresh key is appended. -/
def entrySet {V : Type} (l : List (String × V)) (k : String) (v : V) : List (String × V) :=
  if l.any (fun p => p.1 = k) then
    l.map (fun p => if p.1 = k then (k, v) else p)
  else
    l ++ [(k, v)]

/-- A raw validation/submission failure payload (`any` in the source):
absent (`null`/`undefined`), a single message, or a structured per-field
object. -/
inductive RawErrors where
  | rnull : RawErrors
  | rmsg : String → RawErrors
  | rmap : List (String × Option String) → RawErrors
deriving DecidableEq, Repr

/-- Canonical error mapping `FormErrors`: field name (or `"form"`) to an
error payload, `none` meaning the key is present with a null value. -/
def FormErrors : Type := List (String × Option String)

instance : DecidableEq FormErrors := by
  unfold FormErrors
  infer_instance

/-- Modelled from the spec: the sanitized result of a raw outcome for one
single key, used by `mergeErrors` ("the entry for `name` is replaced by the
sanitized result of `newErrors` for that single key"; "malformed raw error
shapes degrade to no error for the malformed key").  The implementation in
`handlerEngine.ts` is not among the sources, only its declaration. -/
def sanitizeForKey (raw : RawErrors) (name : String) : Option String :=
  match raw with
  | .rnull => none
  | .rmsg s => some s
  | .rmap m => (entryGet m name).join

/-- Modelled from the spec: `mergeErrors(definition, oldErrors, name,
newErrors)` "produces a new FormErrors value equal to `oldErrors` except that
the entry for `name` is replaced by the sanitized result of `newErrors` for
that single key.  All other keys in `oldErrors` are preserved unchanged."
The implementation in `handlerEngine.ts` is not among the sources, only its
declaration `mergeErrors<P>(definition, oldError, name, newErrors)`. -/
def mergeErrors {V : Type} (definition : List (String × V)) (oldErrors : FormErrors)
    (name : String) (newErrors : RawErrors) : FormErrors :=
  let _ := definition
  entrySet oldErrors name (sanitizeForKey newErrors name)

/-- Modelled from the spec: the field-name validity check of
`definitionChecker.ts` (not among the sources): "given the declared field set
and a candidate name plus a context label, returns whether the name is
valid".  The declared field set is the key set of the caller-supplied default
values; the context label only feeds the instrumentation sink. -/
def isDefinedName {V : Type} (definition : List (String × V)) (name : String) : Bool :=
  (entryGet definition name).isSome

/-- The eventual behaviour of one user-supplied operation (validator or
submitter) handed to the Handler Invocation Engine: it returns a plain
result, throws synchronously, or returns a pending asynchronous result that
later fulfills or rejects. -/
inductive OpBehavior where
  | retSync : OpBehavior
  | throwSync : RawErrors → OpBehavior
  | asyncFulfilled : OpBehavior
  | asyncRejected : RawErrors → OpBehavior
deriving DecidableEq, Repr

/-- One completion-callback firing of the Handler Invocation Engine:
`onResolve` carries no payload, `onReject` carries the thrown/rejected
value. -/
inductive CallbackEvent where
  | onResolve : CallbackEvent
  | onReject : RawErrors → CallbackEvent
deriving DecidableEq, Repr

/-- Modelled from the spec: the Handler Invocation Engine `invokeHandler`
(implementation in `handlerEngine.ts` not among the sources, only its
declaration).  It "executes `operation`" and routes the outcome: success
(sync plain return or async fulfillment) fires `onResolve()` with no
payload; a synchronous throw is caught and converted into `onReject(reason)`;
an async rejection fires `onReject(reason)`.  The result lists the
completion-callback firings of the invocation, in order. -/
def invokeHandler (op : OpBehavior) : List CallbackEvent :=
  match op with
  | .retSync => [.onResolve]
  | .throwSync r => [.onReject r]
  | .asyncFulfilled => [.onResolve]
  | .asyncRejected r => [.onReject r]

/-- The single completion event of an invocation. -/
def invokeHandlerEvent (op : OpBehavior) : CallbackEvent :=
  match op with
  | .retSync => .onResolve
  | .throwSync r => .onReject r
  | .asyncFulfilled => .onResolve
  | .asyncRejected r => .onReject r

/-- Whether the operation completes successfully. -/
def opSucceeds (op : OpBehavior) : Bool :=
  match op with
  | .retSync => true
  | .asyncFulfilled => true
  | _ => false

/-- The failure payload of the operation, when it fails. -/
def opFailure (op : OpBehavior) : Option RawErrors :=
  match op with
  | .throwSync r => some r
  | .asyncRejected r => some r
  | _ => none

/-- The component state of `FormStateProvider`:
`{ values, errors, isSubmitting }`. -/
structure ProviderState (V : Type) where
  values : List (String × V)
  errors : FormErrors
  isSubmitting : Bool
deriving DecidableEq

/-- The whole controller: the props (`defaultValues`, `validators`,
`submitter`), the component state, and the lifecycle flag
`canSetStateFromAsync` set by `componentWillMount` / cleared by
`componentWillUnmount`.  A validator or the submitter is embedded as a
function from the value map it receives to its eventual behaviour. -/
structure Controller (V : Type) where
  defaultValues : List (String × V)
  validators : String → Option (List (String × V) → OpBehavior)
  submitter : List (String × V) → OpBehavior
  state : ProviderState V
  canSetStateFromAsync : Bool

/-- Constructor plus `componentWillMount`: state initialized from the
caller-supplied defaults, empty errors, not submitting; the lifecycle flag
becomes true. -/
def mkController {V : Type} (defaults : List (String × V))
    (validators : String → Option (List (String × V) → OpBehavior))
    (submitter : List (String × V) → OpBehavior) : Controller V :=
  { defaultValues := defaults
    validators := validators
    submitter := submitter
    state := { values := defaults, errors := [], isSubmitting := false }
    canSetStateFromAsync := true }

/-- Embeds `componentWillUnmount`: clears the lifecycle flag. -/
def unmount {V : Type} (c : Controller V) : Controller V :=
  { c with canSetStateFromAsync := false }

/-- Embeds `isPristine`: every key of the current value map holds a value
strictly equal to the corresponding default (an absent default compares
unequal, as `value !== undefined` does in the source). -/
def isPristine {V : Type} [DecidableEq V] (c : Controller V) : Bool :=
  c.state.values.all (fun p => entryGet c.defaultValues p.1 = some p.2)

/-- Embeds `hasError`: some entry of the error map holds a non-null payload. -/
def hasError {V : Type} (c : Controller V) : Bool :=
  c.state.errors.any (fun p => p.2.isSome)

/-- Embeds `updateErrors`: guarded by the lifecycle flag; when
mounted, merges the outcome for `name` into the error map. -/
def updateErrors {V : Type} (c : Controller V) (name : String) (newErrors : RawErrors) :
    Controller V :=
  if c.canSetStateFromAsync then
    { c with state :=
      { c.state with errors := mergeErrors c.defaultValues c.state.errors name newErrors } }
  else c

/-- Embeds `endSubmitting`: guarded by the lifecycle flag; when mounted, clears
`isSubmitting`. -/
def endSubmitting {V : Type} (c : Controller V) : Controller V :=
  if c.canSetStateFromAsync then
    { c with state := { c.state with isSubmitting := false } }
  else c

/-- A completion waiting to be delivered: a validator completion for a field,
or the submitter completion. -/
inductive PendingCompletion where
  | validation : String → CallbackEvent → PendingCompletion
  | submission : CallbackEvent → PendingCompletion
deriving DecidableEq, Repr

/-- The result of one controller entry point: the controller after the
synchronous part of the call, the handler invocation it issued (handler key
and the value map passed to the handler), and the completion left to be
delivered. -/
structure StepResult (V : Type) where
  ctrl : Controller V
  invoked : Option (String × List (String × V))
  pending : Option PendingCompletion

/-- Embeds `invokeValidator`: looks the validator up (absent
registry or absent entry is a no-op); the value map handed to the validator
is the current values overridden at `name` by `newValue`
(`Map(this.state.values).set(name, newValue).toJS()`); the completion
callbacks route through `updateErrors` with `null` on resolve and the reason
on reject. -/
def invokeValidator {V : Type} (c : Controller V) (name : String) (newValue : V) :
    StepResult V :=
  match c.validators name with
  | none => ⟨c, none, none⟩
  | some validator =>
      let currentValues := entrySet c.state.values name newValue
      ⟨c, some (name, currentValues),
        some (.validation name (invokeHandlerEvent (validator currentValues)))⟩

/-- Embeds `change`: requires the name to be
declared (else no-op); writes `values[name] ← newValue`; when
`validateConcurrently`, immediately invokes the validator with the new
value. -/
def change {V : Type} (c : Controller V) (name : String) (newValue : V)
    (validateConcurrently : Bool) : StepResult V :=
  if isDefinedName c.defaultValues name then
    let c1 : Controller V :=
      { c with state := { c.state with values := entrySet c.state.values name newValue } }
    if validateConcurrently then invokeValidator c1 name newValue
    else ⟨c1, none, none⟩
  else ⟨c, none, none⟩

/-- Embeds `validate`: requires the name to be declared (else no-op); invokes
the validator with the stored current value of the field.  (When the key is
absent from the value map the source passes JavaScript `undefined`; that
case cannot arise from the initial states, whose value-map keys are exactly
the default keys, and is embedded as a no-op.) -/
def validate {V : Type} (c : Controller V) (name : String) : StepResult V :=
  if isDefinedName c.defaultValues name then
    match entryGet c.state.values name with
    | some v => invokeValidator c name v
    | none => ⟨c, none, none⟩
  else ⟨c, none, none⟩

/-- Embeds `submit`: sets `isSubmitting ← true`, invokes the submitter with
the full current values under the key "form"; on resolve the completion
merges the "form" entry with `null` then ends submitting, on reject it
merges the "form" entry with the reason then ends submitting. -/
def submit {V : Type} (c : Controller V) : StepResult V :=
  let c1 : Controller V := { c with state := { c.state with isSubmitting := true } }
  let values := c1.state.values
  ⟨c1, some ("form", values),
    some (.submission (invokeHandlerEvent (c.submitter values)))⟩

/-- Embeds `reset`: guarded by the lifecycle flag; when mounted, restores the
default values, clears the errors and clears `isSubmitting`. -/
def reset {V : Type} (c : Controller V) : Controller V :=
  if c.canSetStateFromAsync then
    { c with state := { values := c.defaultValues, errors := [], isSubmitting := false } }
  else c

/-- Delivery of a pending completion: the exact callback chains the source
installs — `updateErrors(name, ·)` for a validator,
then `endSubmitting` under the "form" key for the submitter. -/
def settle {V : Type} (c : Controller V) (p : PendingCompletion) : Controller V :=
  match p with
  | .validation name ev =>
      match ev with
      | .onResolve => updateErrors c name .rnull
      | .onReject reason => updateErrors c name reason
  | .submission ev =>
      match ev with
      | .onResolve => endSubmitting (updateErrors c "form" .rnull)
      | .onReject reason => endSubmitting (updateErrors c "form" reason)

/-- A DOM input value forwarded by the change adaptor: a value string or a
checked flag. -/
inductive DomValue where
  | str : String → DomValue
  | bool : Bool → DomValue
deriving DecidableEq, Repr

/-- The relevant fields of the target element of a native change event. -/
structure ChangeEvent where
  targetName : String
  targetType : String
  targetValue : String
  targetChecked : Bool
deriving DecidableEq, Repr

/-- Embeds `changeAdaptor` from `eventAdaptors.ts`: forwards
`(e.target.name, value, validateConcurrently)` to the wrapped handler, where
`value` is `e.target.value` unless the element type is "checkbox", in
which case it is `e.target.checked`. -/
def changeAdaptor (validateConcurrently : Bool) (e : ChangeEvent) :
    String × DomValue × Bool :=
  let value := if e.targetType ≠ "checkbox" then DomValue.str e.targetValue
               else DomValue.bool e.targetChecked
  (e.targetName, value, validateConcurrently)

/-- Embeds `focusAdaptor` from `eventAdaptors.ts`: forwards the target name. -/
def focusAdaptor (e : ChangeEvent) : String :=
  e.targetName

/-- A concrete validator used by concrete instantiations: accepts the value 0
of field "a" synchronously, rejects everything else asynchronously. -/
def exValidator : List (String × Nat) → OpBehavior :=
  fun m =>
    match entryGet m "a" with
    | some 0 => .retSync
    | _ => .asyncRejected (.rmsg "bad")

/-- A concrete mounted controller with two fields, no validators, and a
submitter that rejects asynchronously. -/
def exCtrl : Controller Nat :=
  mkController [("a", 0), ("b", 1)] (fun _ => none)
    (fun _ => .asyncRejected (.rmsg "server error"))

/-- A concrete mounted controller with a validator registered on every
field. -/
def exVal : Controller Nat :=
  mkController [("a", 0), ("b", 1)] (fun _ => some exValidator) (fun _ => .retSync)

/-- A concrete unmounted controller whose state is dirty: a changed value,
a recorded error, and an in-flight submission flag. -/
def exDirty : Controller Nat :=
  { defaultValues := [("a", 0)]
    validators := fun _ => none
    submitter := fun _ => .retSync
    state := { values := [("a", 3)], errors := [("a", some "bad")], isSubmitting := true }
    canSetStateFromAsync := false }

/-- A concrete mounted controller in which exactly the field "a" has been
moved off its default value. -/
def exPart : Controller Nat :=
  { defaultValues := [("a", 0), ("b", 1)]
    validators := fun _ => none
    submitter := fun _ => .retSync
    state := { values := [("a", 5), ("b", 1)], errors := [], isSubmitting := false }
    canSetStateFromAsync := true }

/-! ### Association-list lemmas -/

lemma entryGet_append_single_ne {V : Type} (l : List (String × V)) (k k' : String) (v : V)
    (h : k' ≠ k) : entryGet (l ++ [(k, v)]) k' = entryGet l k' := by
  induction l with
  | nil => simp [entryGet, Ne.symm h]
  | cons hd tl ih =>
    obtain ⟨a, b⟩ := hd
    by_cases hk : a = k'
    · simp [entryGet, hk]
    · simp [entryGet, hk, ih]

lemma entryGet_append_single_self {V : Type} (l : List (String × V)) (k : String) (v : V)
    (h : ∀ p ∈ l, p.1 ≠ k) : entryGet (l ++ [(k, v)]) k = some v := by
  induction l with
  | nil => simp [entryGet]
  | cons hd tl ih =>
    obtain ⟨a, b⟩ := hd
    have hne : a ≠ k := by simpa using h (a, b) (by simp)
    simp only [List.cons_append, entryGet, hne, if_false]
    exact ih (fun p hp => h p (List.mem_cons_of_mem _ hp))

lemma entryGet_replace_self {V : Type} (l : List (String × V)) (k : String) (v : V)
    (h : l.any (fun p => p.1 = k) = true) :
    entryGet (l.map (fun p => if p.1 = k then (k, v) else p)) k = some v := by
  induction l with
  | nil => simp at h
  | cons hd tl ih =>
    obtain ⟨a, b⟩ := hd
    by_cases hk : a = k
    · have hhead : (if (a, b).1 = k then (k, v) else ((a, b) : String × V)) = (k, v) := by
        simp [hk]
      rw [List.map_cons, hhead]
      simp [entryGet]
    · have h' : tl.any (fun p => p.1 = k) = true := by
        simp only [List.any_cons, Bool.or_eq_true, decide_eq_true_eq] at h
        exact h.resolve_left hk
      have hhead : (if (a, b).1 = k then (k, v) else ((a, b) : String × V)) = (a, b) := by
        simp [hk]
      rw [List.map_cons, hhead]
      simp [entryGet, hk, ih h']

lemma entryGet_replace_ne {V : Type} (l : List (String × V)) (k k' : String) (v : V)
    (h : k' ≠ k) :
    entryGet (l.map (fun p => if p.1 = k then (k, v) else p)) k' = entryGet l k' := by
  induction l with
  | nil => rfl
  | cons hd tl ih =>
    obtain ⟨a, b⟩ := hd
    by_cases hk : a = k
    · have h2 : a ≠ k' := by rw [hk]; exact Ne.symm h
      have hhead : (if (a, b).1 = k then (k, v) else ((a, b) : String × V)) = (k, v) := by
        simp [hk]
      rw [List.map_cons, hhead]
      simp [entryGet, Ne.symm h, h2, ih]
    · have hhead : (if (a, b).1 = k then (k, v) else ((a, b) : String × V)) = (a, b) := by
        simp [hk]
      rw [List.map_cons, hhead]
      by_cases hk' : a = k'
      · simp [entryGet, hk']
      · simp [entryGet, hk', ih]

lemma any_key_false {V : Type} {l : List (String × V)} {k : String}
    (ha : ¬(l.any (fun p => p.1 = k) = true)) : ∀ p ∈ l, p.1 ≠ k := by
  intro p hp hpk
  exact ha (List.any_eq_true.mpr ⟨p, hp, by simp [hpk]⟩)

lemma entryGet_entrySet_self {V : Type} (l : List (String × V)) (k : String) (v : V) :
    entryGet (entrySet l k v) k = some v := by
  unfold entrySet
  split
  · exact entryGet_replace_self l k v (by assumption)
  · rename_i ha
    exact entryGet_append_single_self l k v (any_key_false ha)

lemma entryGet_entrySet_ne {V : Type} (l : List (String × V)) (k k' : String) (v : V)
    (h : k' ≠ k) : entryGet (entrySet l k v) k' = entryGet l k' := by
  unfold entrySet
  split
  · exact entryGet_replace_ne l k k' v h
  · exact entryGet_append_single_ne l k k' v h

lemma mem_entrySet {V : Type} {l : List (String × V)} {k : String} {v : V} {p : String × V}
    (h : p ∈ entrySet l k v) : p = (k, v) ∨ (p ∈ l ∧ p.1 ≠ k) := by
  unfold entrySet at h
  split at h
  · obtain ⟨q, hq, hfq⟩ := List.mem_map.mp h
    by_cases hk : q.1 = k
    · left
      rw [← hfq]
      simp [hk]
    · right
      rw [← hfq]
      simp only [hk, if_false]
      exact ⟨hq, hk⟩
  · rename_i ha
    rcases List.mem_append.mp h with hl | hr
    · exact Or.inr ⟨hl, any_key_false ha p hl⟩
    · left
      simpa using hr

lemma entrySet_any_self {V : Type} (l : List (String × V)) (k : String) (v : V) :
    (entrySet l k v).any (fun p => p.1 = k) = true := by
  apply List.any_eq_true.mpr
  refine ⟨(k, v), ?_, by simp⟩
  unfold entrySet
  split
  · rename_i ha
    obtain ⟨q, hq, hk⟩ := List.any_eq_true.mp ha
    refine List.mem_map.mpr ⟨q, hq, ?_⟩
    simp only [decide_eq_true_eq] at hk
    simp [hk]
  · exact List.mem_append.mpr (Or.inr (by simp))

lemma entrySet_of_any_true {V : Type} {l : List (String × V)} {k : String} (v : V)
    (h : l.any (fun p => p.1 = k) = true) :
    entrySet l k v = l.map (fun p => if p.1 = k then (k, v) else p) := by
  unfold entrySet
  simp [h]

lemma entrySet_idem {V : Type} (l : List (String × V)) (k : String) (v : V) :
    entrySet (entrySet l k v) k v = entrySet l k v := by
  rw [entrySet_of_any_true v (entrySet_any_self l k v)]
  have hfix : ∀ p ∈ entrySet l k v, (if p.1 = k then (k, v) else p) = p := by
    intro p hp
    rcases mem_entrySet hp with rfl | ⟨_, hne⟩
    · simp
    · simp [hne]
  calc (entrySet l k v).map (fun p => if p.1 = k then (k, v) else p)
      = (entrySet l k v).map id := List.map_congr_left hfix
    _ = entrySet l k v := List.map_id _

/-! ### Controller lemmas -/

lemma invokeValidator_ctrl {V : Type} (c : Controller V) (name : String) (newValue : V) :
    (invokeValidator c name newValue).ctrl = c := by
  unfold invokeValidator
  split <;> rfl

lemma validate_ctrl {V : Type} (c : Controller V) (name : String) :
    (validate c name).ctrl = c := by
  unfold validate
  split
  · split
    · exact invokeValidator_ctrl _ _ _
    · rfl
  · rfl

lemma change_ctrl {V : Type} (c : Controller V) (name : String) (v : V) (b : Bool) :
    (change c name v b).ctrl =
      if isDefinedName c.defaultValues name then
        { c with state := { c.state with values := entrySet c.state.values name v } }
      else c := by
  unfold change
  by_cases h : isDefinedName c.defaultValues name = true
  · simp only [h, if_true]
    cases b
    · rfl
    · simp [invokeValidator_ctrl]
  · simp [h]

lemma updateErrors_not_mounted {V : Type} {c : Controller V}
    (h : c.canSetStateFromAsync = false) (name : String) (ne : RawErrors) :
    updateErrors c name ne = c := by
  simp [updateErrors, h]

lemma endSubmitting_not_mounted {V : Type} {c : Controller V}
    (h : c.canSetStateFromAsync = false) : endSubmitting c = c := by
  simp [endSubmitting, h]

lemma settle_not_mounted {V : Type} {c : Controller V}
    (h : c.canSetStateFromAsync = false) (p : PendingCompletion) :
    settle c p = c := by
  cases p with
  | validation name ev =>
      cases ev <;> simp [settle, updateErrors_not_mounted h]
  | submission ev =>
      cases ev <;>
        simp [settle, updateErrors_not_mounted h, endSubmitting_not_mounted h]

/-! ### Claims -/

/-- C1.  A validator or submitter completion (resolve or reject) delivered
after unmount — when `canSetStateFromAsync` is false — mutates nothing:
values, errors and `isSubmitting` are all unchanged, because `updateErrors`
and `endSubmitting` check the flag immediately before mutating. -/
theorem claim_C1 {V : Type} (c : Controller V) (p : PendingCompletion)
    (h : c.canSetStateFromAsync = false) : (settle c p).state = c.state := by
  rw [settle_not_mounted h]

theorem claim_C1_witness :
    (settle (unmount exCtrl) (.validation "a" (.onReject (.rmsg "e")))).state
      = (unmount exCtrl).state :=
  claim_C1 (unmount exCtrl) (.validation "a" (.onReject (.rmsg "e"))) rfl

/-- C2 as stated is false; the amended claim: after unmount, `validate` is a
full state no-op and every asynchronous completion is discarded, but `change`
with a declared name still updates the value map (errors and `isSubmitting`
untouched), and `submit` still sets `isSubmitting` to true (values and errors
untouched). -/
theorem claim_C2 {V : Type} (c : Controller V) (name : String) (v : V) (b : Bool)
    (p : PendingCompletion) (h : c.canSetStateFromAsync = false) :
    (validate c name).ctrl.state = c.state ∧
    (change c name v b).ctrl.state.errors = c.state.errors ∧
    (change c name v b).ctrl.state.isSubmitting = c.state.isSubmitting ∧
    (submit c).ctrl.state.values = c.state.values ∧
    (submit c).ctrl.state.errors = c.state.errors ∧
    (submit c).ctrl.state.isSubmitting = true ∧
    (settle c p).state = c.state := by
  refine ⟨by rw [validate_ctrl], ?_, ?_, rfl, rfl, rfl, by rw [settle_not_mounted h]⟩ <;>
    · rw [change_ctrl]
      split <;> rfl

/-- C2, the claim as frozen, is refuted: on a concrete unmounted controller,
`change` still updates the value map, so the call is not a no-op. -/
theorem claim_C2_counterexample :
    ¬((change (unmount exCtrl) "a" 5 true).ctrl.state = (unmount exCtrl).state) := by
  decide

theorem claim_C2_witness :
    (validate (unmount exCtrl) "a").ctrl.state = (unmount exCtrl).state ∧
    (change (unmount exCtrl) "a" 5 true).ctrl.state.errors = (unmount exCtrl).state.errors ∧
    (change (unmount exCtrl) "a" 5 true).ctrl.state.isSubmitting
      = (unmount exCtrl).state.isSubmitting ∧
    (submit (unmount exCtrl)).ctrl.state.values = (unmount exCtrl).state.values ∧
    (submit (unmount exCtrl)).ctrl.state.errors = (unmount exCtrl).state.errors ∧
    (submit (unmount exCtrl)).ctrl.state.isSubmitting = true ∧
    (settle (unmount exCtrl) (.submission .onResolve)).state = (unmount exCtrl).state :=
  claim_C2 (unmount exCtrl) "a" 5 true (.submission .onResolve) rfl

/-- C3 as stated is false; the amended claim: while mounted, `reset` restores
the caller-supplied defaults, clears the errors and clears `isSubmitting`;
the source guards `reset` with the `canSetStateFromAsync` flag, so after
unmount it is a no-op. -/
theorem claim_C3 {V : Type} (c : Controller V) (h : c.canSetStateFromAsync = true) :
    (reset c).state.values = c.defaultValues ∧
    (reset c).state.errors = [] ∧
    (reset c).state.isSubmitting = false := by
  simp [reset, h]

/-- C3, the claim as frozen, is refuted: on a concrete unmounted controller
with a dirty state, `reset` restores nothing, because the source guards it
with the `canSetStateFromAsync` flag. -/
theorem claim_C3_counterexample :
    ¬((reset exDirty).state.values = exDirty.defaultValues ∧
      (reset exDirty).state.errors = [] ∧
      (reset exDirty).state.isSubmitting = false) := by
  decide

theorem claim_C3_witness :
    (reset exVal).state.values = exVal.defaultValues ∧
    (reset exVal).state.errors = [] ∧
    (reset exVal).state.isSubmitting = false :=
  claim_C3 exVal rfl

/-- C4.  Merging an outcome for key A into an existing error map never
changes the entry of any other key B: `mergeErrors` is local to the single
key it was invoked for. -/
theorem claim_C4 {V : Type} (definition : List (String × V)) (E : FormErrors)
    (A : String) (outcome : RawErrors) (B : String) (h : B ≠ A) :
    entryGet (mergeErrors definition E A outcome) B = entryGet E B := by
  unfold mergeErrors
  exact entryGet_entrySet_ne E A B _ h

theorem claim_C4_witness :
    entryGet (mergeErrors ([("a", 0), ("b", 1)] : List (String × Nat))
        ([("a", some "x"), ("b", some "y")] : FormErrors) "a" (.rmsg "z")) "b"
      = entryGet ([("a", some "x"), ("b", some "y")] : FormErrors) "b" :=
  claim_C4 [("a", 0), ("b", 1)] [("a", some "x"), ("b", some "y")] "a" (.rmsg "z") "b"
    (by decide)

/-- C5.  Every completing operation fires exactly one completion callback:
the invocation produces exactly one event; a successful operation (sync plain
return or async fulfillment) fires `onResolve` with no payload; a failing
operation — including a synchronous throw, which is caught rather than
escaping — fires `onReject` with the thrown/rejected value. -/
theorem claim_C5 (op : OpBehavior) (r : RawErrors) :
    invokeHandler op = [invokeHandlerEvent op] ∧
    (opSucceeds op = true → invokeHandler op = [.onResolve]) ∧
    (opFailure op = some r → invokeHandler op = [.onReject r]) := by
  cases op <;>
    simp [invokeHandler, invokeHandlerEvent, opSucceeds, opFailure]

theorem claim_C5_witness :
    invokeHandler (.throwSync (.rmsg "boom")) = [.onReject (.rmsg "boom")] :=
  (claim_C5 (.throwSync (.rmsg "boom")) (.rmsg "boom")).2.2 rfl

/-- C6.  A `submit` call sets `isSubmitting` to true and invokes the
submitter with the full current values under the key "form"; a resolve
completion merges the "form" entry with null and then clears `isSubmitting`;
a reject completion merges the "form" entry with the reason and then clears
`isSubmitting` (completion clauses under the mounted flag, which guards
them). -/
theorem claim_C6 {V : Type} (c : Controller V) (reason : RawErrors)
    (h : c.canSetStateFromAsync = true) :
    (submit c).ctrl.state.isSubmitting = true ∧
    (submit c).ctrl.state.values = c.state.values ∧
    (submit c).ctrl.state.errors = c.state.errors ∧
    (submit c).invoked = some ("form", c.state.values) ∧
    (submit c).pending
      = some (.submission (invokeHandlerEvent (c.submitter c.state.values))) ∧
    (settle (submit c).ctrl (.submission .onResolve)).state =
      { values := c.state.values,
        errors := mergeErrors c.defaultValues c.state.errors "form" .rnull,
        isSubmitting := false } ∧
    (settle (submit c).ctrl (.submission (.onReject reason))).state =
      { values := c.state.values,
        errors := mergeErrors c.defaultValues c.state.errors "form" reason,
        isSubmitting := false } := by
  refine ⟨rfl, rfl, rfl, rfl, rfl, ?_, ?_⟩ <;>
    simp [submit, settle, updateErrors, endSubmitting, h]

theorem claim_C6_witness :
    (submit exCtrl).ctrl.state.isSubmitting = true ∧
    (submit exCtrl).ctrl.state.values = exCtrl.state.values ∧
    (submit exCtrl).ctrl.state.errors = exCtrl.state.errors ∧
    (submit exCtrl).invoked = some ("form", exCtrl.state.values) ∧
    (submit exCtrl).pending
      = some (.submission (invokeHandlerEvent (exCtrl.submitter exCtrl.state.values))) ∧
    (settle (submit exCtrl).ctrl (.submission .onResolve)).state =
      { values := exCtrl.state.values,
        errors := mergeErrors exCtrl.defaultValues exCtrl.state.errors "form" .rnull,
        isSubmitting := false } ∧
    (settle (submit exCtrl).ctrl (.submission (.onReject (.rmsg "server error")))).state =
      { values := exCtrl.state.values,
        errors := mergeErrors exCtrl.defaultValues exCtrl.state.errors "form"
          (.rmsg "server error"),
        isSubmitting := false } :=
  claim_C6 exCtrl (.rmsg "server error") rfl

lemma change_invoked_true {V : Type} (c : Controller V) (name : String) (v : V)
    (hdef : isDefinedName c.defaultValues name = true) :
    (change c name v true).invoked =
      (invokeValidator
        { c with state := { c.state with values := entrySet c.state.values name v } }
        name v).invoked := by
  unfold change
  simp [hdef]

lemma invokeValidator_invoked {V : Type} (c : Controller V) (name : String) (nv : V)
    (hv : List (String × V) → OpBehavior) (hreg : c.validators name = some hv) :
    (invokeValidator c name nv).invoked = some (name, entrySet c.state.values name nv) := by
  unfold invokeValidator
  split
  · rename_i heq
    rw [heq] at hreg
    cases hreg
  · rfl

/-- C7.  A `change` with concurrent validation on a declared field with a
registered validator invokes the validator with the current value map
overridden at that field by the just-assigned value; in particular the map
the validator receives holds the new value at that field, never a stale
one. -/
theorem claim_C7 {V : Type} (c : Controller V) (name : String) (v : V)
    (hv : List (String × V) → OpBehavior)
    (hdef : isDefinedName c.defaultValues name = true)
    (hreg : c.validators name = some hv) :
    (change c name v true).invoked = some (name, entrySet c.state.values name v) ∧
    entryGet (entrySet c.state.values name v) name = some v := by
  refine ⟨?_, entryGet_entrySet_self _ _ _⟩
  rw [change_invoked_true c name v hdef]
  have h2 := invokeValidator_invoked
    { c with state := { c.state with values := entrySet c.state.values name v } }
    name v hv hreg
  rw [h2]
  simp [entrySet_idem]

theorem claim_C7_witness :
    (change exVal "a" 7 true).invoked = some ("a", entrySet exVal.state.values "a" 7) ∧
    entryGet (entrySet exVal.state.values "a" 7) "a" = some 7 :=
  claim_C7 exVal "a" 7 exValidator (by decide) rfl

/-- C8.  On an undeclared name, `change` and `validate` leave the state
untouched, invoke nothing and leave no completion pending — the calls are
no-ops (and total functions, so nothing is thrown). -/
theorem claim_C8 {V : Type} (c : Controller V) (name : String) (v : V) (b : Bool)
    (h : isDefinedName c.defaultValues name = false) :
    (change c name v b).ctrl.state = c.state ∧
    (change c name v b).invoked = none ∧
    (change c name v b).pending = none ∧
    (validate c name).ctrl.state = c.state ∧
    (validate c name).invoked = none ∧
    (validate c name).pending = none := by
  unfold change validate
  simp [h]

theorem claim_C8_witness :
    (change exVal "zzz" 9 true).ctrl.state = exVal.state ∧
    (change exVal "zzz" 9 true).invoked = none ∧
    (change exVal "zzz" 9 true).pending = none ∧
    (validate exVal "zzz").ctrl.state = exVal.state ∧
    (validate exVal "zzz").invoked = none ∧
    (validate exVal "zzz").pending = none :=
  claim_C8 exVal "zzz" 9 true (by decide)

/-- C9.  Changing a declared field back to its default value, when every
other entry of the value map is at its default, restores `isPristine`. -/
theorem claim_C9 {V : Type} [DecidableEq V] (c : Controller V) (name : String) (d : V)
    (b : Bool) (hd : entryGet c.defaultValues name = some d)
    (hothers : ∀ p ∈ c.state.values, p.1 ≠ name → entryGet c.defaultValues p.1 = some p.2) :
    isPristine (change c name d b).ctrl = true := by
  have hdef : isDefinedName c.defaultValues name = true := by
    simp [isDefinedName, hd]
  rw [change_ctrl]
  simp only [hdef, if_true]
  unfold isPristine
  apply List.all_eq_true.mpr
  intro p hp
  rcases mem_entrySet hp with rfl | ⟨hmem, hne⟩
  · simpa using hd
  · simpa using hothers p hmem hne

theorem claim_C9_witness :
    isPristine (change exPart "a" 0 true).ctrl = true :=
  claim_C9 exPart "a" 0 true (by decide) (by decide)

/-- C10.  The pre-adapted change handler forwards the checked property of
the target element when its type is "checkbox", and its value property
otherwise. -/
theorem claim_C10 (vc : Bool) (e : ChangeEvent) :
    (e.targetType = "checkbox" →
      changeAdaptor vc e = (e.targetName, DomValue.bool e.targetChecked, vc)) ∧
    (e.targetType ≠ "checkbox" →
      changeAdaptor vc e = (e.targetName, DomValue.str e.targetValue, vc)) := by
  constructor <;> intro h <;> simp [changeAdaptor, h]

theorem claim_C10_witness :
    changeAdaptor true ⟨"agree", "checkbox", "on", true⟩
      = ("agree", DomValue.bool true, true) :=
  (claim_C10 true ⟨"agree", "checkbox", "on", true⟩).1 rfl

end ReactFormEnhancer
